import Mathlib

/-!
Shallow embedding of the core of `scrape.js` (startup-job-board-scrape):
string normalization helpers, the posted-age parser, the HTML-card
extractor, the id -> record index with upsert, the per-mode stop policy,
the CSV cell escaper, and the retrying fetcher (modelled over an oracle
of per-attempt outcomes).  Strings are Lean `String`s; JavaScript
`undefined` values are `Option`; machine floats never matter for the
verified fragment (all ages and counts are small integers), so numbers
are `Nat`.
-/

/-- The character class of JavaScript's regex `\s` (and of `String.prototype.trim`):
ASCII whitespace plus the Unicode space separators, line separators and BOM. -/
def isJsWs (c : Char) : Bool :=
  let n := c.toNat
  n = 9 || n = 10 || n = 11 || n = 12 || n = 13 || n = 32 ||
  n = 160 || n = 0x1680 || (0x2000 ≤ n && n ≤ 0x200a) ||
  n = 0x2028 || n = 0x2029 || n = 0x202f || n = 0x205f || n = 0x3000 || n = 0xfeff

/-- ASCII lower-casing, modelling JS `toLowerCase` on the ASCII inputs the
scraper's keyword tests look at. -/
def jsLower (c : Char) : Char :=
  if 65 ≤ c.toNat ∧ c.toNat ≤ 90 then Char.ofNat (c.toNat + 32) else c

/-- `s.replace(/\x5cs+/g, " ")` on a character list: each maximal whitespace
run becomes a single space.  The boolean records whether the previous
character was part of a whitespace run. -/
def squashWs : Bool → List Char → List Char
  | _, [] => []
  | inRun, c :: cs =>
    if isJsWs c then
      if inRun then squashWs true cs else ' ' :: squashWs true cs
    else c :: squashWs false cs

/-- Drop leading and trailing JS-whitespace, i.e. `String.prototype.trim`. -/
def trimWsL (l : List Char) : List Char :=
  ((l.dropWhile isJsWs).reverse.dropWhile isJsWs).reverse

/-- `normalizeSpace` from scrape.js: `(s ?? "").replace(/\x5cs+/g, " ").trim()`. -/
def normalizeSpace (s : String) : String :=
  String.mk (trimWsL (squashWs false s.data))

/-- JS `String.prototype.trim` on a Lean string. -/
def jsTrim (s : String) : String :=
  String.mk (trimWsL s.data)

/-- `stableIdFromJobUrl` from scrape.js: `jobUrl?.trim() || ""`.
The argument is `Option` because of the optional chaining. -/
def stableIdFromJobUrl (jobUrl : Option String) : String :=
  match jobUrl with
  | none => ""
  | some s => jsTrim s

/-- `needle` is a prefix of `hay` (executable). -/
def leadsWith : List Char → List Char → Bool
  | [], _ => true
  | _ :: _, [] => false
  | n :: ns, h :: hs => n = h && leadsWith ns hs

/-- `needle` occurs as a contiguous substring of `hay` (executable),
modelling JS `String.prototype.includes`. -/
def hasSub (needle : List Char) : List Char → Bool
  | [] => needle.isEmpty
  | c :: cs => leadsWith needle (c :: cs) || hasSub needle cs

/-- Scanner for the JS regexes `/(\d+)\s*day/`, `/(\d+)\s*hour/`,
`/(\d+)\s*minute/`: leftmost match of a digit run, optional whitespace,
then the keyword; returns the numeric value of the digit run.
`run = some acc` means we are inside a digit run whose value so far is
`acc`. -/
def scanNumKw (kw : List Char) : Option Nat → List Char → Option Nat
  | some _, [] => none
  | none, [] => none
  | some acc, c :: cs =>
    if c.isDigit then scanNumKw kw (some (acc * 10 + (c.toNat - 48))) cs
    else if leadsWith kw ((c :: cs).dropWhile isJsWs) then some acc
    else scanNumKw kw none cs
  | none, c :: cs =>
    if c.isDigit then scanNumKw kw (some (c.toNat - 48)) cs
    else scanNumKw kw none cs

/-- `parsePostedAgeDays` from scrape.js, with `null` as `none`. -/
def parsePostedAgeDays (postedText : String) : Option Nat :=
  let t := (normalizeSpace postedText).data.map jsLower
  if t.isEmpty then none
  else if hasSub "today".data t then some 0
  else
    match scanNumKw "day".data none t with
    | some n => some n
    | none =>
      match scanNumKw "hour".data none t with
      | some _ => some 0
      | none =>
        match scanNumKw "minute".data none t with
        | some _ => some 0
        | none => none

/-- JS regex word characters `[A-Za-z0-9_]`, used by the `\b` boundary. -/
def isWordChar (c : Char) : Bool :=
  c.isAlpha || c.isDigit || c = '_'

/-- `s.replace(/\bNew\b$/i, "")`: drop a trailing word "new" (case-insensitive)
when it is preceded by a word boundary (start of string or a non-word char). -/
def replNewEnd (l : List Char) : List Char :=
  match l.reverse with
  | w :: e :: n :: rest =>
    if jsLower w = 'w' ∧ jsLower e = 'e' ∧ jsLower n = 'n' ∧
       (rest.headD ' ' |> isWordChar) = false
    then rest.reverse else l
  | _ => l

/-- `s.replace(/tags\.new$/i, "")`: drop a trailing "tags.new" (case-insensitive). -/
def replTagsNewEnd (l : List Char) : List Char :=
  if leadsWith ("tags.new".data.reverse) (l.reverse.map jsLower) then
    l.take (l.length - 8)
  else l

/-- `stripTrailingNew` from scrape.js: the two anchored replaces, then
`normalizeSpace`. -/
def stripTrailingNew (s : String) : String :=
  normalizeSpace (String.mk (replTagsNewEnd (replNewEnd s.data)))

/-- `text.replace(/what they do:\s*/i, "")`: remove the first
case-insensitive occurrence of "what they do:" together with the
whitespace run that follows it. -/
def replWhatTheyDo : List Char → List Char
  | [] => []
  | c :: cs =>
    if leadsWith "what they do:".data ((c :: cs).map jsLower) then
      ((c :: cs).drop 13).dropWhile isJsWs
    else c :: replWhatTheyDo cs

/-- A job record as built by `extractJobsFromHtml` (timestamp-free). -/
structure JobRecord where
  id : String
  company : String
  company_site : String
  job_title : String
  job_url : String
  apply_url : String
  location : String
  experience : String
  posted : String
  posted_age_days : Option Nat
  logo : String
  company_size : String
  funding_tags : List String
  what_they_do : String
  industries : List String
  source : String
deriving Repr, DecidableEq

/-- One listing card of the source page, reduced to the texts and
attributes the extractor reads.  `Option` fields model cheerio `attr`
calls that return `undefined` when the element or attribute is absent;
plain `String` fields model `.text()` calls, which return `""` on an
empty selection. -/
structure Card where
  jobHref : Option String
  companyText : String
  companyHref : Option String
  jobTitleText : String
  applyHref : Option String
  locationText : String
  experienceText : String
  postedText : String
  logoSrc : Option String
  companySizeText : String
  fundingTagsTexts : List String
  whatTheyDoText : String
  industryTexts : List String
deriving Repr, DecidableEq

/-- A card with every source text absent. -/
def emptyCard : Card :=
  { jobHref := none, companyText := "", companyHref := none, jobTitleText := "",
    applyHref := none, locationText := "", experienceText := "", postedText := "",
    logoSrc := none, companySizeText := "", fundingTagsTexts := [],
    whatTheyDoText := "", industryTexts := [] }

/-- The per-card body of `extractJobsFromHtml`: resolve the job link
(dropping the card when it normalizes to empty) and build the record
field for field as the source does. -/
def extractCard (sourceUrl : String) (card : Card) : Option JobRecord :=
  let jobUrl := normalizeSpace (card.jobHref.getD "")
  if jobUrl = "" then none
  else
    let applyRaw := normalizeSpace (card.applyHref.getD "")
    some
      { id := stableIdFromJobUrl (some jobUrl)
        company := stripTrailingNew card.companyText
        company_site := normalizeSpace (card.companyHref.getD "")
        job_title := stripTrailingNew card.jobTitleText
        job_url := jobUrl
        apply_url := if applyRaw = "" then jobUrl else applyRaw
        location := normalizeSpace card.locationText
        experience := normalizeSpace card.experienceText
        posted := normalizeSpace card.postedText
        posted_age_days := parsePostedAgeDays (normalizeSpace card.postedText)
        logo := normalizeSpace (card.logoSrc.getD "")
        company_size := normalizeSpace card.companySizeText
        funding_tags := (card.fundingTagsTexts.map normalizeSpace).filter (fun t => t ≠ "")
        what_they_do := normalizeSpace (String.mk (replWhatTheyDo card.whatTheyDoText.data))
        industries := (card.industryTexts.map normalizeSpace).filter (fun t => t ≠ "")
        source := sourceUrl }

/-- The final filter of `extractJobsFromHtml`:
`jobs.filter(j => j.id && !seen.has(j.id) && seen.add(j.id))` —
keep records with a non-empty id not seen before on this page. -/
def dedupNonEmptyIds : List JobRecord → List String → List JobRecord
  | [], _ => []
  | j :: js, seen =>
    if j.id ≠ "" ∧ j.id ∉ seen then j :: dedupNonEmptyIds js (j.id :: seen)
    else dedupNonEmptyIds js seen

/-- `extractJobsFromHtml` from scrape.js, over a page already decomposed
into its listing cards. -/
def extractJobsFromHtml (cards : List Card) (sourceUrl : String) : List JobRecord :=
  dedupNonEmptyIds (cards.filterMap (extractCard sourceUrl)) []

/-- An entry of `index.json`: the record fields plus the lifecycle
timestamps (`{...job, created_at, updated_at}` in the source). -/
structure IndexEntry where
  job : JobRecord
  created_at : String
  updated_at : String
deriving Repr, DecidableEq

/-- The index as an insertion-ordered association list, modelling the JS
object with string (URL) keys. -/
abbrev JobIndex := List (String × IndexEntry)

/-- JS object property lookup `indexObj[id]` on the association list. -/
def lookupId : JobIndex → String → Option IndexEntry
  | [], _ => none
  | (k, v) :: rest, key => if k = key then some v else lookupId rest key

/-- Overwrite the value at an existing key, keeping its position
(JS object assignment on a present key). -/
def setKey : JobIndex → String → IndexEntry → JobIndex
  | [], _, _ => []
  | (k, v) :: rest, key, nv =>
    if k = key then (k, nv) :: rest else (k, v) :: setKey rest key nv

/-- The `{isNew, changed}` result of `upsertIndex`. -/
structure UpsertOut where
  isNew : Bool
  changed : Bool
deriving Repr, DecidableEq

/-- `upsertIndex` from scrape.js.  Absent key: insert
`{...job, created_at: ts, updated_at: ts}` (new keys append in a JS
object).  Present key: `{...existing, ...job, created_at:
existing.created_at, updated_at: ts}`, which replaces every record field
with the new observation and keeps only `created_at`. -/
def upsertIndex (idx : JobIndex) (job : JobRecord) (ts : String) : JobIndex × UpsertOut :=
  match lookupId idx job.id with
  | none => (idx ++ [(job.id, ⟨job, ts, ts⟩)], ⟨true, true⟩)
  | some e => (setKey idx job.id ⟨job, e.created_at, ts⟩, ⟨false, true⟩)

/-- The two crawl modes. -/
inductive Mode
  | today
  | all
deriving Repr, DecidableEq

/-- A stop decision with its reason string. -/
structure StopInfo where
  stop : Bool
  reason : String
deriving Repr, DecidableEq

/-- The "today"-mode predicate of `computeStopForMode`:
`typeof j.posted_age_days === "number" && j.posted_age_days <= 1`. -/
def isRecentAge (j : JobRecord) : Bool :=
  match j.posted_age_days with
  | some n => n ≤ 1
  | none => false

/-- `computeStopForMode` from scrape.js. -/
def computeStopForMode (mode : Mode) (jobs : List JobRecord) (maxAgeDays : Nat) : StopInfo :=
  if jobs.length = 0 then ⟨true, "no_cards"⟩
  else
    match mode with
    | .today =>
      let hasRecent := jobs.any isRecentAge
      if !hasRecent then ⟨true, "no_recent_<=_1_day_on_page"⟩ else ⟨false, ""⟩
    | .all =>
      let ages := jobs.filterMap JobRecord.posted_age_days
      if ages.length = 0 then ⟨false, ""⟩
      else
        let oldest := ages.foldl max 0
        if oldest > maxAgeDays then ⟨true, "older_than_" ++ toString maxAgeDays⟩
        else ⟨false, ""⟩

/-- The characters that force CSV quoting in `csvEscape`: the regex `[",\n]`. -/
def isCsvSpecial (c : Char) : Bool :=
  c = '"' || c = ',' || c = '\n'

/-- `s.replace(/"/g, String.fromCharCode(34, 34))`: double every quote. -/
def doubleQuotesL : List Char → List Char
  | [] => []
  | c :: cs => if c = '"' then '"' :: '"' :: doubleQuotesL cs else c :: doubleQuotesL cs

/-- `csvEscape` from scrape.js: quote-wrap with doubled quotes iff the
value contains a comma, a quote or a newline. -/
def csvEscape (s : String) : String :=
  if s.data.any isCsvSpecial then String.mk ('"' :: (doubleQuotesL s.data ++ ['"']))
  else s

/-- Collapse doubled quotes back to single quotes. -/
def unDoubleQuotesL : List Char → List Char
  | [] => []
  | [c] => [c]
  | c :: d :: cs =>
    if c = '"' ∧ d = '"' then '"' :: unDoubleQuotesL cs
    else c :: unDoubleQuotesL (d :: cs)

/-- Standard reparse of one delimited-format cell: a cell starting with a
quote is unwrapped and its doubled quotes collapsed; any other cell is
taken verbatim. -/
def parseCsvCell (s : String) : String :=
  match s.data with
  | c :: rest => if c = '"' then String.mk (unDoubleQuotesL rest.dropLast) else s
  | [] => s

/-- Trace of one `fetchWithRetry` run: which attempt numbers were issued,
which sleeps happened (in ms), and the outcome.  A failure carries the
last underlying error (`none` only in the degenerate `retries = 0` case). -/
structure FetchOut (E : Type) where
  attempts : List Nat
  waits : List Nat
  result : Except (Option E) String

/-- The attempt loop of `fetchWithRetry`, driven by an oracle giving each
attempt's outcome, with fuel `retries - attempt + 1`.  On failure of a
non-final attempt `k` the loop sleeps `backoff * k`. -/
def fetchAux {E : Type} (oracle : Nat → Except E String) (retries backoff : Nat) :
    Nat → Nat → Option E → FetchOut E
  | 0, _, lastErr => ⟨[], [], .error lastErr⟩
  | fuel + 1, attempt, _ =>
    match oracle attempt with
    | .ok s => ⟨[attempt], [], .ok s⟩
    | .error e =>
      let rest := fetchAux oracle retries backoff fuel (attempt + 1) (some e)
      if attempt < retries then
        ⟨attempt :: rest.attempts, backoff * attempt :: rest.waits, rest.result⟩
      else ⟨attempt :: rest.attempts, rest.waits, rest.result⟩

/-- `fetchWithRetry` from scrape.js: attempts numbered from 1 up to
`retries`. -/
def fetchWithRetry {E : Type} (oracle : Nat → Except E String) (retries backoff : Nat) :
    FetchOut E :=
  fetchAux oracle retries backoff retries 1 none

/-- A record used to exercise the stop policy: all text fields empty, the
given age. -/
def sampleJob (age : Option Nat) : JobRecord :=
  { id := "https://example.com/job", company := "", company_site := "",
    job_title := "", job_url := "https://example.com/job", apply_url := "",
    location := "", experience := "", posted := "", posted_age_days := age,
    logo := "", company_size := "", funding_tags := [], what_they_do := "",
    industries := [], source := "" }

theorem trimWsL_eq_rdrop (l : List Char) :
    trimWsL l = List.rdropWhile isJsWs (List.dropWhile isJsWs l) := rfl

theorem dropWhile_trimWsL (l : List Char) :
    List.dropWhile isJsWs (trimWsL l) = trimWsL l := by
  rw [trimWsL_eq_rdrop]
  have hmm : List.dropWhile isJsWs (List.dropWhile isJsWs l) = List.dropWhile isJsWs l :=
    List.dropWhile_idempotent isJsWs l
  rw [List.dropWhile_eq_self_iff]
  intro hl
  have hpre : List.rdropWhile isJsWs (List.dropWhile isJsWs l) <+: List.dropWhile isJsWs l :=
    List.rdropWhile_prefix isJsWs _
  have hlen : 0 < (List.dropWhile isJsWs l).length := lt_of_lt_of_le hl hpre.length_le
  have hget := hpre.getElem (n := 0) hl
  rw [List.dropWhile_eq_self_iff] at hmm
  have h2 := hmm hlen
  simp only [List.get_eq_getElem] at h2 ⊢
  rw [hget]
  exact h2

theorem trimWsL_idem (l : List Char) : trimWsL (trimWsL l) = trimWsL l := by
  rw [trimWsL_eq_rdrop (trimWsL l), dropWhile_trimWsL, trimWsL_eq_rdrop l]
  exact List.rdropWhile_idempotent isJsWs _

theorem jsTrim_normalizeSpace (s : String) :
    jsTrim (normalizeSpace s) = normalizeSpace s := by
  show String.mk (trimWsL (trimWsL (squashWs false s.data)))
      = String.mk (trimWsL (squashWs false s.data))
  rw [trimWsL_idem]

theorem trimWsL_eq_nil_iff (l : List Char) :
    trimWsL l = [] ↔ ∀ c ∈ l, isJsWs c = true := by
  rw [trimWsL_eq_rdrop, List.rdropWhile_eq_nil_iff]
  constructor
  · intro h c hc
    have hsplit : c ∈ l.takeWhile isJsWs ++ l.dropWhile isJsWs := by
      rw [List.takeWhile_append_dropWhile]; exact hc
    rcases List.mem_append.mp hsplit with h1 | h2
    · exact List.mem_takeWhile_imp h1
    · exact h c h2
  · intro h c hc
    exact h c ((List.dropWhile_suffix isJsWs).sublist.subset hc)

theorem squashWs_all_ws (l : List Char) :
    ∀ b, (∀ c ∈ squashWs b l, isJsWs c = true) ↔ ∀ c ∈ l, isJsWs c = true := by
  induction l with
  | nil => intro b; simp [squashWs]
  | cons c cs ih =>
    intro b
    by_cases hc : isJsWs c = true
    · cases b
      · simp only [squashWs, hc, if_true, Bool.false_eq_true, if_false,
          List.forall_mem_cons, ih]
        have hsp : isJsWs ' ' = true := by decide
        simp [hsp, hc]
      · simp only [squashWs, hc, if_true, List.forall_mem_cons, ih]
        simp [hc]
    · simp only [squashWs, hc, if_false, List.forall_mem_cons, ih]
      simp [hc]

theorem normalizeSpace_eq_empty_iff (s : String) :
    normalizeSpace s = "" ↔ ∀ c ∈ s.data, isJsWs c = true := by
  constructor
  · intro h
    have hd : trimWsL (squashWs false s.data) = [] := congrArg String.data h
    exact (squashWs_all_ws s.data false).mp ((trimWsL_eq_nil_iff _).mp hd)
  · intro h
    exact String.ext
      (show trimWsL (squashWs false s.data) = [] from
        (trimWsL_eq_nil_iff _).mpr ((squashWs_all_ws s.data false).mpr h))

theorem mem_dedupNonEmptyIds {r : JobRecord} :
    ∀ {js : List JobRecord} {seen : List String},
      r ∈ dedupNonEmptyIds js seen → r.id ≠ "" := by
  intro js
  induction js with
  | nil => intro seen h; simp [dedupNonEmptyIds] at h
  | cons j js ih =>
    intro seen h
    by_cases hj : j.id ≠ "" ∧ j.id ∉ seen
    · rw [dedupNonEmptyIds, if_pos hj] at h
      rcases List.mem_cons.mp h with hr | h2
      · rw [hr]; exact hj.1
      · exact ih h2
    · rw [dedupNonEmptyIds, if_neg hj] at h
      exact ih h

/-- C1 counterexample: for the job-detail href `J = "a  b"` (two internal
spaces) the extracted record's id is `"a b"` — internal whitespace runs are
collapsed — while `trim(J)` keeps `J` unchanged, so the id does not equal
the trimmed URL string. -/
theorem C1_id_not_trim_cex :
    (extractCard "https://topstartups.io/jobs/"
          { emptyCard with jobHref := some "a  b" }).map JobRecord.id = some "a b"
      ∧ jsTrim "a  b" = "a  b"
      ∧ ("a b" : String) ≠ "a  b" := by decide

/-- C1 (amended): for a card whose job-detail href is `J`, the extracted
id equals `J` with whitespace runs collapsed to single spaces and the ends
trimmed (`normalizeSpace J`) — not bare `trim(J)`; the card is dropped
(and otherwise the id is non-empty) exactly when `J` is empty or
whitespace-only, and every record produced by page extraction has a
non-empty id, so no record with an empty id enters the index. -/
theorem C1_id_is_normalized_href (src : String) (card : Card) (J : String)
    (hJ : card.jobHref = some J) :
    (∀ r, extractCard src card = some r → r.id = normalizeSpace J ∧ r.id ≠ "")
      ∧ (extractCard src card = none ↔ normalizeSpace J = "")
      ∧ (normalizeSpace J = "" ↔ ∀ c ∈ J.data, isJsWs c = true)
      ∧ (∀ cards r, r ∈ extractJobsFromHtml cards src → r.id ≠ "") := by
  have hgd : card.jobHref.getD "" = J := by rw [hJ]; rfl
  refine ⟨?_, ?_, normalizeSpace_eq_empty_iff J, ?_⟩
  · intro r hr
    rw [extractCard, hgd] at hr
    by_cases hu : normalizeSpace J = ""
    · rw [if_pos hu] at hr
      exact absurd hr (by simp)
    · rw [if_neg hu] at hr
      have hrec := Option.some.inj hr
      constructor
      · rw [← hrec]
        exact jsTrim_normalizeSpace J
      · rw [← hrec]
        show jsTrim (normalizeSpace J) ≠ ""
        rw [jsTrim_normalizeSpace J]
        exact hu
  · rw [extractCard, hgd]
    by_cases hu : normalizeSpace J = ""
    · simp [hu]
    · simp [hu]
  · intro cards r hr
    exact mem_dedupNonEmptyIds hr

/-- C1 witness: instantiation of the amended theorem at a whitespace-only
href, which is dropped. -/
theorem C1_id_is_normalized_href_witness :
    extractCard "u" { emptyCard with jobHref := some "  " } = none
      ↔ normalizeSpace "  " = "" :=
  (C1_id_is_normalized_href "u" { emptyCard with jobHref := some "  " } "  " rfl).2.1

/-- C6 counterexample: a card with a resolvable job-detail link but no
apply link produces `apply_url` equal to the job link (the `|| jobUrl`
fallback), not the empty string claimed for absent fields. -/
theorem C6_apply_url_fallback_cex :
    (extractCard "u" { emptyCard with jobHref := some "https://x" }).map
        JobRecord.apply_url = some "https://x"
      ∧ ("https://x" : String) ≠ "" := by decide

/-- C6 (amended): for every kept card, each field whose source text is
absent is the empty string — except `posted_age_days`, which is unknown
(`none`) rather than zero, and except `apply_url`, which falls back to the
job-detail URL when the card has no apply link. -/
theorem C6_absent_field_defaults (src : String) (card : Card) (r : JobRecord)
    (h : extractCard src card = some r) :
    (normalizeSpace (card.applyHref.getD "") = "" → r.apply_url = r.job_url)
      ∧ (card.companyText = "" → r.company = "")
      ∧ (card.companyHref = none → r.company_site = "")
      ∧ (card.jobTitleText = "" → r.job_title = "")
      ∧ (card.locationText = "" → r.location = "")
      ∧ (card.experienceText = "" → r.experience = "")
      ∧ (card.postedText = "" → r.posted = "" ∧ r.posted_age_days = none)
      ∧ (card.logoSrc = none → r.logo = "")
      ∧ (card.companySizeText = "" → r.company_size = "")
      ∧ (card.fundingTagsTexts = [] → r.funding_tags = [])
      ∧ (card.whatTheyDoText = "" → r.what_they_do = "")
      ∧ (card.industryTexts = [] → r.industries = []) := by
  rw [extractCard] at h
  by_cases hu : normalizeSpace (card.jobHref.getD "") = ""
  · rw [if_pos hu] at h
    exact absurd h (by simp)
  · rw [if_neg hu] at h
    have hrec := Option.some.inj h
    rw [← hrec]
    refine ⟨?_, ?_, ?_, ?_, ?_, ?_, ?_, ?_, ?_, ?_, ?_, ?_⟩
    · intro he
      show (if normalizeSpace (card.applyHref.getD "") = "" then
          normalizeSpace (card.jobHref.getD "") else normalizeSpace (card.applyHref.getD ""))
        = normalizeSpace (card.jobHref.getD "")
      rw [if_pos he]
    · intro he
      show stripTrailingNew card.companyText = ""
      rw [he]; decide
    · intro he
      show normalizeSpace (card.companyHref.getD "") = ""
      rw [he]; decide
    · intro he
      show stripTrailingNew card.jobTitleText = ""
      rw [he]; decide
    · intro he
      show normalizeSpace card.locationText = ""
      rw [he]; decide
    · intro he
      show normalizeSpace card.experienceText = ""
      rw [he]; decide
    · intro he
      constructor
      · show normalizeSpace card.postedText = ""
        rw [he]; decide
      · show parsePostedAgeDays (normalizeSpace card.postedText) = none
        rw [he]; decide
    · intro he
      show normalizeSpace (card.logoSrc.getD "") = ""
      rw [he]; decide
    · intro he
      show normalizeSpace card.companySizeText = ""
      rw [he]; decide
    · intro he
      show ((card.fundingTagsTexts.map normalizeSpace).filter (fun t => t ≠ "")) = []
      rw [he]; decide
    · intro he
      show normalizeSpace (String.mk (replWhatTheyDo card.whatTheyDoText.data)) = ""
      rw [he]; decide
    · intro he
      show ((card.industryTexts.map normalizeSpace).filter (fun t => t ≠ "")) = []
      rw [he]; decide

/-- The record extracted from a card with only a job link. -/
def recNoApply : JobRecord :=
  (extractCard "u" { emptyCard with jobHref := some "https://x" }).getD (sampleJob none)

/-- The record extracted from a card with a job link and a location text. -/
def recLocation : JobRecord :=
  (extractCard "u"
    { emptyCard with jobHref := some "https://x", locationText := " New  York " }).getD
    (sampleJob none)

/-- C6 witness: the amended theorem applied to a card with only a job
link; its apply_url equals its job_url. -/
theorem C6_absent_field_defaults_witness :
    recNoApply.apply_url = recNoApply.job_url :=
  (C6_absent_field_defaults "u" { emptyCard with jobHref := some "https://x" }
    recNoApply rfl).1 (by decide)

/-- C7 counterexample: the company text `"Acme New"` is stored as
`"Acme"` — `stripTrailingNew` removes the trailing "New" badge — which is
not the pure collapse-and-trim normalization of the source text. -/
theorem C7_company_strips_new_cex :
    (extractCard "u"
        { emptyCard with jobHref := some "https://x", companyText := "Acme New" }).map
        JobRecord.company = some "Acme"
      ∧ normalizeSpace "Acme New" = "Acme New"
      ∧ ("Acme" : String) ≠ "Acme New" := by decide

/-- C7 (amended): location, experience, posted, company_site,
company_size and logo are exactly the collapse-and-trim normalization of
their source texts; company and job_title additionally have a trailing
"New" badge (or a trailing "tags.new" artifact) stripped before
normalization, and what_they_do additionally has the leading
"what they do:" label removed. -/
theorem C7_field_normalization (src : String) (card : Card) (r : JobRecord)
    (h : extractCard src card = some r) :
    r.location = normalizeSpace card.locationText
      ∧ r.experience = normalizeSpace card.experienceText
      ∧ r.posted = normalizeSpace card.postedText
      ∧ r.company_site = normalizeSpace (card.companyHref.getD "")
      ∧ r.company_size = normalizeSpace card.companySizeText
      ∧ r.logo = normalizeSpace (card.logoSrc.getD "")
      ∧ r.company = stripTrailingNew card.companyText
      ∧ r.job_title = stripTrailingNew card.jobTitleText
      ∧ r.what_they_do
          = normalizeSpace (String.mk (replWhatTheyDo card.whatTheyDoText.data)) := by
  rw [extractCard] at h
  by_cases hu : normalizeSpace (card.jobHref.getD "") = ""
  · rw [if_pos hu] at h
    exact absurd h (by simp)
  · rw [if_neg hu] at h
    have hrec := Option.some.inj h
    rw [← hrec]
    exact ⟨rfl, rfl, rfl, rfl, rfl, rfl, rfl, rfl, rfl⟩

/-- C7 witness: the amended theorem applied to a card with a
double-spaced location text. -/
theorem C7_field_normalization_witness :
    recLocation.location = normalizeSpace " New  York " :=
  (C7_field_normalization "u"
    { emptyCard with jobHref := some "https://x", locationText := " New  York " }
    recLocation rfl).1

theorem lookupId_append_of_none {idx : JobIndex} {k : String}
    (h : lookupId idx k = none) (tail : JobIndex) :
    lookupId (idx ++ tail) k = lookupId tail k := by
  induction idx with
  | nil => simp [lookupId]
  | cons p rest ih =>
    obtain ⟨k1, v1⟩ := p
    by_cases hk : k1 = k
    · rw [lookupId, if_pos hk] at h
      cases h
    · rw [lookupId, if_neg hk] at h
      rw [List.cons_append, lookupId, if_neg hk]
      exact ih h

theorem lookupId_setKey_self {idx : JobIndex} {k : String} {v0 : IndexEntry}
    (nv : IndexEntry) (h : lookupId idx k = some v0) :
    lookupId (setKey idx k nv) k = some nv := by
  induction idx with
  | nil => cases h
  | cons p rest ih =>
    obtain ⟨k1, v1⟩ := p
    by_cases hk : k1 = k
    · rw [setKey, if_pos hk, lookupId, if_pos hk]
    · rw [lookupId, if_neg hk] at h
      rw [setKey, if_neg hk, lookupId, if_neg hk]
      exact ih h

theorem lookupId_setKey_ne (idx : JobIndex) {k key : String} (nv : IndexEntry)
    (h : k ≠ key) : lookupId (setKey idx key nv) k = lookupId idx k := by
  induction idx with
  | nil => rfl
  | cons p rest ih =>
    obtain ⟨k1, v1⟩ := p
    by_cases hk : k1 = key
    · rw [setKey, if_pos hk, lookupId, lookupId]
      subst hk
      rw [if_neg (fun hh => h hh.symm), if_neg (fun hh => h hh.symm)]
    · rw [setKey, if_neg hk, lookupId, lookupId]
      by_cases hk2 : k1 = k
      · rw [if_pos hk2, if_pos hk2]
      · rw [if_neg hk2, if_neg hk2]
        exact ih

theorem setKey_map_fst (idx : JobIndex) (key : String) (nv : IndexEntry) :
    (setKey idx key nv).map Prod.fst = idx.map Prod.fst := by
  induction idx with
  | nil => rfl
  | cons p rest ih =>
    obtain ⟨k1, v1⟩ := p
    by_cases hk : k1 = key
    · rw [setKey, if_pos hk]
      simp
    · rw [setKey, if_neg hk]
      simp [ih]

/-- C2: upserting an unseen id appends the record with
`created_at = updated_at = observedAt` and returns `isNew = true`;
upserting a seen id replaces every field except id and created_at, sets
`updated_at = observedAt`, and returns `isNew = false`, `changed = true`;
hence observing one id at `t1` then `t2` leaves `created_at = t1`,
`updated_at = t2`, and all record fields from the second observation. -/
theorem C2_upsert_lifecycle (idx : JobIndex) (job job2 : JobRecord)
    (t1 t2 : String) (e : IndexEntry) :
    (lookupId idx job.id = none →
        upsertIndex idx job t1 = (idx ++ [(job.id, ⟨job, t1, t1⟩)], ⟨true, true⟩))
      ∧ (lookupId idx job.id = some e →
          (upsertIndex idx job t2).2 = ⟨false, true⟩
            ∧ lookupId (upsertIndex idx job t2).1 job.id = some ⟨job, e.created_at, t2⟩)
      ∧ (lookupId idx job.id = none → job2.id = job.id →
          lookupId (upsertIndex (upsertIndex idx job t1).1 job2 t2).1 job.id
            = some ⟨job2, t1, t2⟩) := by
  refine ⟨?_, ?_, ?_⟩
  · intro h
    rw [upsertIndex, h]
  · intro h
    rw [upsertIndex, h]
    exact ⟨rfl, lookupId_setKey_self _ h⟩
  · intro h hid
    rw [← hid]
    have hinner : upsertIndex idx job t1
        = (idx ++ [(job.id, ⟨job, t1, t1⟩)], ⟨true, true⟩) := by
      rw [upsertIndex, h]
    rw [hinner]
    have h1 : lookupId (idx ++ [(job.id, ⟨job, t1, t1⟩)]) job2.id
        = some ⟨job, t1, t1⟩ := by
      rw [hid, lookupId_append_of_none h, lookupId, if_pos rfl]
    rw [upsertIndex, h1]
    exact lookupId_setKey_self _ h1

/-- C2 witness: a fresh id inserted at "t1" and replaced at "t2". -/
theorem C2_upsert_lifecycle_witness :
    lookupId
        (upsertIndex (upsertIndex [] (sampleJob (some 3)) "t1").1
          (sampleJob (some 4)) "t2").1
        (sampleJob (some 3)).id
      = some ⟨sampleJob (some 4), "t1", "t2"⟩ :=
  (C2_upsert_lifecycle [] (sampleJob (some 3)) (sampleJob (some 4)) "t1" "t2"
    ⟨sampleJob (some 3), "t1", "t1"⟩).2.2 rfl rfl

theorem lookupId_append_single_ne (idx : JobIndex) (j : String) (e : IndexEntry)
    {k : String} (hk : k ≠ j) :
    lookupId (idx ++ [(j, e)]) k = lookupId idx k := by
  induction idx with
  | nil =>
    rw [List.nil_append, lookupId, lookupId, if_neg (fun hh => hk hh.symm)]
    rfl
  | cons p rest ih =>
    obtain ⟨k1, v1⟩ := p
    rw [List.cons_append, lookupId, lookupId]
    by_cases hk1 : k1 = k
    · rw [if_pos hk1, if_pos hk1]
    · rw [if_neg hk1, if_neg hk1]
      exact ih

theorem upsert_lookup_ne (idx : JobIndex) (job : JobRecord) (ts : String)
    {k : String} (hk : k ≠ job.id) :
    lookupId (upsertIndex idx job ts).1 k = lookupId idx k := by
  rw [upsertIndex]
  cases h : lookupId idx job.id with
  | none => exact lookupId_append_single_ne idx job.id _ hk
  | some e => exact lookupId_setKey_ne idx _ hk

/-- C9: an upsert touches at most the entry at the record's own id —
lookups at every other key are unchanged, a key present before stays
present, and the key sequence of the index only grows. -/
theorem C9_upsert_frame (idx : JobIndex) (job : JobRecord) (ts : String)
    (k : String) :
    (k ≠ job.id → lookupId (upsertIndex idx job ts).1 k = lookupId idx k)
      ∧ ((lookupId idx k).isSome → (lookupId (upsertIndex idx job ts).1 k).isSome)
      ∧ idx.map Prod.fst ⊆ (upsertIndex idx job ts).1.map Prod.fst := by
  refine ⟨fun hk => upsert_lookup_ne idx job ts hk, ?_, ?_⟩
  · intro hsome
    by_cases hk : k = job.id
    · subst hk
      rw [upsertIndex]
      cases h : lookupId idx job.id with
      | none => rw [h] at hsome; cases hsome
      | some e =>
        rw [lookupId_setKey_self _ h]
        rfl
    · rw [upsert_lookup_ne idx job ts hk]
      exact hsome
  · rw [upsertIndex]
    cases h : lookupId idx job.id with
    | none =>
      show idx.map Prod.fst
          ⊆ (idx ++ [(job.id, (⟨job, ts, ts⟩ : IndexEntry))]).map Prod.fst
      rw [List.map_append]
      exact List.subset_append_left _ _
    | some e =>
      rw [setKey_map_fst]
      exact fun a ha => ha

theorem isRecentAge_iff (j : JobRecord) :
    isRecentAge j = true ↔ ∃ n, j.posted_age_days = some n ∧ n ≤ 1 := by
  cases h : j.posted_age_days with
  | none => simp [isRecentAge, h]
  | some n => simp [isRecentAge, h]

theorem foldl_max_lt_iff (l : List Nat) :
    ∀ i m : Nat, m < l.foldl max i ↔ m < i ∨ ∃ n ∈ l, m < n := by
  induction l with
  | nil => intro i m; simp
  | cons a as ih =>
    intro i m
    rw [List.foldl_cons, ih]
    constructor
    · rintro (h | ⟨n, hn, hmn⟩)
      · rcases lt_max_iff.mp h with h1 | h2
        · exact Or.inl h1
        · exact Or.inr ⟨a, List.mem_cons_self a as, h2⟩
      · exact Or.inr ⟨n, List.mem_cons_of_mem a hn, hmn⟩
    · rintro (h | ⟨n, hn, hmn⟩)
      · exact Or.inl (lt_max_iff.mpr (Or.inl h))
      · rcases List.mem_cons.mp hn with rfl | hmem
        · exact Or.inl (lt_max_iff.mpr (Or.inr hmn))
        · exact Or.inr ⟨n, hmem, hmn⟩

/-- C3: in mode "today" the page decision is continue (stop = false) iff
some record on the page has a known posted_age_days ≤ 1, and stop
otherwise — including on the empty page; ages {2, 5} yield stop and a
single age-0 record yields continue. -/
theorem C3_stop_today (jobs : List JobRecord) (maxAgeDays : Nat) :
    ((computeStopForMode Mode.today jobs maxAgeDays).stop = false
        ↔ ∃ j ∈ jobs, ∃ n, j.posted_age_days = some n ∧ n ≤ 1)
      ∧ (computeStopForMode Mode.today
          [sampleJob (some 2), sampleJob (some 5)] 0).stop = true
      ∧ (computeStopForMode Mode.today [sampleJob (some 0)] 0).stop = false := by
  refine ⟨?_, by decide, by decide⟩
  cases jobs with
  | nil => simp [computeStopForMode]
  | cons j0 rest =>
    rw [computeStopForMode, if_neg (by simp)]
    by_cases hr : (j0 :: rest).any isRecentAge
    · rw [hr]
      simp only [Bool.not_true, Bool.false_eq_true, if_false]
      simp only [List.any_eq_true, isRecentAge_iff] at hr
      simpa using hr
    · rw [Bool.not_eq_true] at hr
      rw [hr]
      simp only [Bool.not_false, if_true]
      rw [List.any_eq_false] at hr
      constructor
      · intro hfalse
        cases hfalse
      · rintro ⟨j, hj, n, hn, h1⟩
        exact absurd ((isRecentAge_iff j).mpr ⟨n, hn, h1⟩) (hr j hj)

/-- C4: in mode "all", on a non-empty page, the decision is stop iff the
maximum known age exceeds maxAgeDays (equivalently, some record's known
age exceeds it), in which case the reason names the threshold; with no
known ages the page continues; a single age-200 record with
maxAgeDays = 180 stops with a reason citing 180. -/
theorem C4_stop_all (jobs : List JobRecord) (maxAgeDays : Nat)
    (h : jobs ≠ []) :
    (jobs.filterMap JobRecord.posted_age_days = [] →
        computeStopForMode Mode.all jobs maxAgeDays = ⟨false, ""⟩)
      ∧ ((computeStopForMode Mode.all jobs maxAgeDays).stop = true
          ↔ ∃ j ∈ jobs, ∃ n, j.posted_age_days = some n ∧ maxAgeDays < n)
      ∧ ((computeStopForMode Mode.all jobs maxAgeDays).stop = true →
          (computeStopForMode Mode.all jobs maxAgeDays).reason
            = "older_than_" ++ toString maxAgeDays)
      ∧ computeStopForMode Mode.all [sampleJob (some 200)] 180
          = ⟨true, "older_than_180"⟩
      ∧ hasSub (toString 180).data "older_than_180".data = true := by
  have hlen : ¬ jobs.length = 0 := by
    cases jobs with
    | nil => exact absurd rfl h
    | cons a b => simp
  have hmain : computeStopForMode Mode.all jobs maxAgeDays
      = (if (jobs.filterMap JobRecord.posted_age_days).length = 0 then ⟨false, ""⟩
         else if (jobs.filterMap JobRecord.posted_age_days).foldl max 0 > maxAgeDays
           then ⟨true, "older_than_" ++ toString maxAgeDays⟩
         else ⟨false, ""⟩) := by
    rw [computeStopForMode, if_neg hlen]
  refine ⟨?_, ?_, ?_, by decide, by decide⟩
  · intro hages
    rw [hmain, hages]
    rfl
  · rw [hmain]
    by_cases hages : (jobs.filterMap JobRecord.posted_age_days).length = 0
    · rw [if_pos hages]
      rw [List.length_eq_zero] at hages
      constructor
      · intro hfalse
        cases hfalse
      · rintro ⟨j, hj, n, hn, hlt⟩
        have : n ∈ jobs.filterMap JobRecord.posted_age_days :=
          List.mem_filterMap.mpr ⟨j, hj, hn⟩
        rw [hages] at this
        cases this
    · rw [if_neg hages]
      by_cases hgt : (jobs.filterMap JobRecord.posted_age_days).foldl max 0 > maxAgeDays
      · rw [if_pos hgt]
        rcases (foldl_max_lt_iff _ 0 maxAgeDays).mp hgt with h0 | ⟨n, hn, hlt⟩
        · cases h0
        · obtain ⟨j, hj, hjn⟩ := List.mem_filterMap.mp hn
          simp only [true_iff]
          exact ⟨j, hj, n, hjn, hlt⟩
      · rw [if_neg hgt]
        constructor
        · intro hfalse
          cases hfalse
        · rintro ⟨j, hj, n, hn, hlt⟩
          exact absurd ((foldl_max_lt_iff _ 0 maxAgeDays).mpr
            (Or.inr ⟨n, List.mem_filterMap.mpr ⟨j, hj, hn⟩, hlt⟩)) hgt
  · rw [hmain]
    by_cases hages : (jobs.filterMap JobRecord.posted_age_days).length = 0
    · rw [if_pos hages]
      intro hfalse
      cases hfalse
    · rw [if_neg hages]
      by_cases hgt : (jobs.filterMap JobRecord.posted_age_days).foldl max 0 > maxAgeDays
      · rw [if_pos hgt]
        intro _
        rfl
      · rw [if_neg hgt]
        intro hfalse
        cases hfalse

/-- C4 witness: the amended... instantiation at a single age-200 record
with maxAgeDays 180. -/
theorem C4_stop_all_witness :
    computeStopForMode Mode.all [sampleJob (some 200)] 180
      = ⟨true, "older_than_180"⟩ :=
  (C4_stop_all [sampleJob (some 200)] 180 (by simp)).2.2.2.1

theorem leadsWith_iff_append (n : List Char) :
    ∀ h : List Char, leadsWith n h = true ↔ ∃ t, h = n ++ t := by
  induction n with
  | nil =>
    intro h
    simp [leadsWith]
  | cons a as ih =>
    intro h
    cases h with
    | nil =>
      constructor
      · intro hh
        cases hh
      · rintro ⟨t, ht⟩
        cases ht
    | cons b bs =>
      rw [leadsWith, Bool.and_eq_true, decide_eq_true_eq, ih bs]
      constructor
      · rintro ⟨rfl, t, rfl⟩
        exact ⟨t, rfl⟩
      · rintro ⟨t, ht⟩
        rw [List.cons_append] at ht
        injection ht with h1 h2
        exact ⟨h1.symm, t, h2⟩

theorem hasSub_iff (n : List Char) :
    ∀ l : List Char, hasSub n l = true ↔ ∃ a b, l = a ++ n ++ b := by
  intro l
  induction l with
  | nil =>
    rw [hasSub, List.isEmpty_iff]
    constructor
    · intro hn
      exact ⟨[], [], by rw [hn]; rfl⟩
    · rintro ⟨a, b, hab⟩
      exact (List.append_eq_nil.mp (List.append_eq_nil.mp hab.symm).1).2
  | cons c cs ih =>
    rw [hasSub, Bool.or_eq_true, leadsWith_iff_append, ih]
    constructor
    · rintro (⟨t, ht⟩ | ⟨a, b, hab⟩)
      · exact ⟨[], t, by rw [ht]; rfl⟩
      · exact ⟨c :: a, b, by rw [hab]; rfl⟩
    · rintro ⟨a, b, hab⟩
      cases a with
      | nil =>
        rw [List.nil_append] at hab
        exact Or.inl ⟨b, hab⟩
      | cons x xs =>
        rw [List.cons_append, List.cons_append] at hab
        injection hab with h1 h2
        exact Or.inr ⟨xs, b, h2⟩

/-- C5: the posted-age parser applies its rules in order — a (normalized,
lower-cased) text containing "today" yields 0; otherwise a leftmost
digits-whitespace-"day" match yields its number; otherwise an "hour" or
"minute" match yields 0; otherwise the age is unknown (`none`) — and
"Posted today" gives 0, "3 days ago" gives 3, "2 hours ago" gives 0, and
the empty string gives unknown. -/
theorem C5_posted_age_rules (s : String) :
    ((∃ a b, (normalizeSpace s).data.map jsLower = a ++ "today".data ++ b) →
        parsePostedAgeDays s = some 0)
      ∧ (∀ n, hasSub "today".data ((normalizeSpace s).data.map jsLower) = false →
          scanNumKw "day".data none ((normalizeSpace s).data.map jsLower) = some n →
          parsePostedAgeDays s = some n)
      ∧ (hasSub "today".data ((normalizeSpace s).data.map jsLower) = false →
          scanNumKw "day".data none ((normalizeSpace s).data.map jsLower) = none →
          ((scanNumKw "hour".data none ((normalizeSpace s).data.map jsLower)).isSome
            ∨ (scanNumKw "minute".data none ((normalizeSpace s).data.map jsLower)).isSome) →
          parsePostedAgeDays s = some 0)
      ∧ ((normalizeSpace s).data.map jsLower = []
            ∨ (hasSub "today".data ((normalizeSpace s).data.map jsLower) = false
              ∧ scanNumKw "day".data none ((normalizeSpace s).data.map jsLower) = none
              ∧ scanNumKw "hour".data none ((normalizeSpace s).data.map jsLower) = none
              ∧ scanNumKw "minute".data none ((normalizeSpace s).data.map jsLower) = none) →
          parsePostedAgeDays s = none)
      ∧ parsePostedAgeDays "Posted today" = some 0
      ∧ parsePostedAgeDays "3 days ago" = some 3
      ∧ parsePostedAgeDays "2 hours ago" = some 0
      ∧ parsePostedAgeDays "" = none := by
  refine ⟨?_, ?_, ?_, ?_, by decide, by decide, by decide, by decide⟩
  · intro hex
    have hsub : hasSub "today".data ((normalizeSpace s).data.map jsLower) = true :=
      (hasSub_iff _ _).mpr hex
    have hne : ((normalizeSpace s).data.map jsLower).isEmpty = false := by
      obtain ⟨a, b, hab⟩ := hex
      rw [List.isEmpty_eq_false_iff_exists_mem]
      refine ⟨'t', ?_⟩
      rw [hab]
      exact List.mem_append.mpr
        (Or.inl (List.mem_append.mpr (Or.inr (by decide))))
    rw [parsePostedAgeDays]
    rw [hne, hsub]
    rfl
  · intro n hsub hday
    rw [parsePostedAgeDays]
    by_cases hne : ((normalizeSpace s).data.map jsLower).isEmpty
    · rw [List.isEmpty_iff] at hne
      rw [hne] at hday
      cases hday
    · rw [Bool.not_eq_true] at hne
      rw [hne, hsub, hday]
      rfl
  · intro hsub hday hrest
    rw [parsePostedAgeDays]
    by_cases hne : ((normalizeSpace s).data.map jsLower).isEmpty
    · rw [List.isEmpty_iff] at hne
      rw [hne] at hrest
      rcases hrest with h1 | h1
      · rw [scanNumKw] at h1
        cases h1
      · rw [scanNumKw] at h1
        cases h1
    · rw [Bool.not_eq_true] at hne
      rw [hne, hsub, hday]
      cases hh : scanNumKw "hour".data none ((normalizeSpace s).data.map jsLower) with
      | some m => rfl
      | none =>
        cases hm : scanNumKw "minute".data none ((normalizeSpace s).data.map jsLower) with
        | some m => rfl
        | none =>
          rcases hrest with h1 | h1
          · rw [hh] at h1
            cases h1
          · rw [hm] at h1
            cases h1
  · intro hcase
    rw [parsePostedAgeDays]
    rcases hcase with hnil | ⟨hsub, hday, hhour, hmin⟩
    · rw [hnil]
      rfl
    · by_cases hne : ((normalizeSpace s).data.map jsLower).isEmpty
      · rw [hne]
        rfl
      · rw [Bool.not_eq_true] at hne
        rw [hne, hsub, hday, hhour, hmin]
        rfl

/-- C5 witness: rule two applied at the concrete text "3 days ago". -/
theorem C5_posted_age_rules_witness :
    parsePostedAgeDays "3 days ago" = some 3 :=
  (C5_posted_age_rules "3 days ago").2.1 3 (by decide) (by decide)

theorem unDouble_double (l : List Char) :
    unDoubleQuotesL (doubleQuotesL l) = l := by
  induction l with
  | nil => rfl
  | cons c cs ih =>
    by_cases hc : c = '"'
    · subst hc
      rw [doubleQuotesL, if_pos rfl, unDoubleQuotesL, if_pos ⟨rfl, rfl⟩, ih]
    · rw [doubleQuotesL, if_neg hc]
      cases hcs : doubleQuotesL cs with
      | nil =>
        rw [hcs] at ih
        rw [unDoubleQuotesL]
        rw [unDoubleQuotesL] at ih
        rw [← ih]
      | cons d rest =>
        rw [hcs] at ih
        rw [unDoubleQuotesL, if_neg (fun hh => hc hh.1), ih]

theorem mk_data_eq (s : String) : String.mk s.data = s := rfl

/-- C10: the cell escaper quote-wraps the value and doubles embedded
quotes exactly when it contains a comma, a double-quote or a newline, and
returns it unchanged otherwise; every value round-trips unchanged through
escape followed by standard cell reparse — in particular a company name
containing both a comma and a double-quote. -/
theorem C10_csv_escape_roundtrip (s : String) :
    (s.data.any isCsvSpecial = true →
        csvEscape s = String.mk ('"' :: (doubleQuotesL s.data ++ ['"'])))
      ∧ (s.data.any isCsvSpecial = false → csvEscape s = s)
      ∧ parseCsvCell (csvEscape s) = s
      ∧ parseCsvCell (csvEscape "Acme, \"Inc\"") = "Acme, \"Inc\"" := by
  refine ⟨?_, ?_, ?_, by decide⟩
  · intro h
    rw [csvEscape, if_pos h]
  · intro h
    rw [csvEscape, if_neg (by rw [h]; exact Bool.false_ne_true)]
  · by_cases h : s.data.any isCsvSpecial
    · rw [csvEscape, if_pos h, parseCsvCell]
      show (if ('"' : Char) = '"'
          then String.mk (unDoubleQuotesL ((doubleQuotesL s.data ++ ['"']).dropLast))
          else String.mk ('"' :: (doubleQuotesL s.data ++ ['"']))) = s
      rw [if_pos rfl, List.dropLast_concat, unDouble_double, mk_data_eq]
    · rw [csvEscape, if_neg h]
      rw [Bool.not_eq_true, List.any_eq_false] at h
      rw [parseCsvCell]
      cases hd : s.data with
      | nil => rfl
      | cons c rest =>
        show (if c = '"' then String.mk (unDoubleQuotesL rest.dropLast) else s) = s
        have hc : ¬ c = '"' := by
          intro hcq
          refine h c ?_ ?_
          · rw [hd]
            exact List.mem_cons_self c rest
          · rw [hcq]
            decide
        rw [if_neg hc]

/-- C10 witness: the general quote-wrapping equation applied to a value
containing a comma and a quote. -/
theorem C10_csv_escape_roundtrip_witness :
    csvEscape "a,\"b" = String.mk ('"' :: (doubleQuotesL "a,\"b".data ++ ['"'])) :=
  (C10_csv_escape_roundtrip "a,\"b").1 (by decide)

theorem fetchAux_attempts_le {E : Type} (oracle : Nat → Except E String)
    (retries backoff : Nat) :
    ∀ (fuel attempt : Nat) (lastErr : Option E),
      (fetchAux oracle retries backoff fuel attempt lastErr).attempts.length ≤ fuel := by
  intro fuel
  induction fuel with
  | zero =>
    intro attempt lastErr
    exact Nat.le_refl 0
  | succ fuel ih =>
    intro attempt lastErr
    simp only [fetchAux]
    split
    · simp
    · split
      · simpa using ih (attempt + 1) (some _)
      · simpa using ih (attempt + 1) (some _)

theorem fetchAux_all_fail {E : Type} (oracle : Nat → Except E String)
    (retries backoff : Nat) (err : Nat → E)
    (herr : ∀ k, 1 ≤ k → k ≤ retries → oracle k = Except.error (err k)) :
    ∀ (fuel attempt : Nat) (lastErr : Option E), 1 ≤ fuel → 1 ≤ attempt →
      attempt + fuel = retries + 1 →
      fetchAux oracle retries backoff fuel attempt lastErr =
        ⟨List.range' attempt fuel,
         (List.range' attempt (fuel - 1)).map (fun k => backoff * k),
         Except.error (some (err retries))⟩ := by
  intro fuel
  induction fuel with
  | zero =>
    intro attempt lastErr hf _ _
    cases hf
  | succ fuel ih =>
    intro attempt lastErr _ h1 h2
    have hle : attempt ≤ retries := by omega
    have hao : oracle attempt = Except.error (err attempt) := herr attempt h1 hle
    rcases Nat.eq_zero_or_pos fuel with hf0 | hfpos
    · subst hf0
      have hnl : ¬ attempt < retries := by omega
      simp only [fetchAux, hao]
      rw [if_neg hnl]
      have ha : retries = attempt := by omega
      rw [← ha]
      rfl
    · have hrec := ih (attempt + 1) (some (err attempt)) (by omega) (by omega) (by omega)
      simp only [fetchAux, hao]
      rw [if_pos (show attempt < retries by omega), hrec]
      show (⟨attempt :: List.range' (attempt + 1) fuel,
          backoff * attempt :: (List.range' (attempt + 1) (fuel - 1)).map (fun k => backoff * k),
          Except.error (some (err retries))⟩ : FetchOut E) = _
      rw [List.range'_succ attempt fuel 1]
      rw [show fuel + 1 - 1 = (fuel - 1) + 1 by omega]
      rw [List.range'_succ attempt (fuel - 1) 1, List.map_cons]

theorem fetchAux_success {E : Type} (oracle : Nat → Except E String)
    (retries backoff : Nat) (err : Nat → E) (j : Nat) (s : String)
    (hok : oracle j = Except.ok s)
    (herr : ∀ k, 1 ≤ k → k < j → oracle k = Except.error (err k))
    (hjr : j ≤ retries) :
    ∀ (fuel attempt : Nat) (lastErr : Option E), 1 ≤ attempt →
      attempt ≤ j → j < attempt + fuel →
      fetchAux oracle retries backoff fuel attempt lastErr =
        ⟨List.range' attempt (j + 1 - attempt),
         (List.range' attempt (j - attempt)).map (fun k => backoff * k),
         Except.ok s⟩ := by
  intro fuel
  induction fuel with
  | zero =>
    intro attempt lastErr _ haj hja
    omega
  | succ fuel ih =>
    intro attempt lastErr h1 haj hja
    by_cases hq : attempt = j
    · rw [← hq] at hok
      simp only [fetchAux, hok]
      rw [show j + 1 - attempt = 1 by omega, show j - attempt = 0 by omega]
      rfl
    · have hlt : attempt < j := by omega
      have hao : oracle attempt = Except.error (err attempt) := herr attempt h1 hlt
      have hrec := ih (attempt + 1) (some (err attempt)) (by omega) (by omega) (by omega)
      simp only [fetchAux, hao]
      rw [if_pos (show attempt < retries by omega), hrec]
      show (⟨attempt :: List.range' (attempt + 1) (j + 1 - (attempt + 1)),
          backoff * attempt
            :: (List.range' (attempt + 1) (j - (attempt + 1))).map (fun k => backoff * k),
          Except.ok s⟩ : FetchOut E) = _
      rw [show j + 1 - (attempt + 1) = j - attempt by omega]
      rw [show j + 1 - attempt = (j - attempt) + 1 by omega]
      rw [List.range'_succ attempt (j - attempt) 1]
      rw [show j - attempt = (j - (attempt + 1)) + 1 by omega]
      rw [List.range'_succ attempt (j - (attempt + 1)) 1, List.map_cons]

/-- C8: with `retries ≥ 1`, the fetcher issues at most `retries` attempts;
when every attempt fails it issues attempts 1..retries, sleeps
`retryBackoffMs * k` after each failed non-final attempt k (none after
the last), and fails carrying the last attempt's error; when attempt j is
the first to succeed it issues attempts 1..j with the corresponding
backoffs and returns the body. -/
theorem C8_fetch_retry_behavior {E : Type} (oracle : Nat → Except E String)
    (retries backoff : Nat) (err : Nat → E) (s : String) (j : Nat)
    (hr : 1 ≤ retries) :
    ((fetchWithRetry oracle retries backoff).attempts.length ≤ retries)
      ∧ ((∀ k, 1 ≤ k → k ≤ retries → oracle k = Except.error (err k)) →
          fetchWithRetry oracle retries backoff =
            ⟨List.range' 1 retries,
             (List.range' 1 (retries - 1)).map (fun k => backoff * k),
             Except.error (some (err retries))⟩)
      ∧ (1 ≤ j → j ≤ retries → oracle j = Except.ok s →
          (∀ k, 1 ≤ k → k < j → oracle k = Except.error (err k)) →
          fetchWithRetry oracle retries backoff =
            ⟨List.range' 1 j,
             (List.range' 1 (j - 1)).map (fun k => backoff * k),
             Except.ok s⟩) := by
  refine ⟨fetchAux_attempts_le oracle retries backoff retries 1 none, ?_, ?_⟩
  · intro hfail
    exact fetchAux_all_fail oracle retries backoff err hfail retries 1 none hr
      (Nat.le_refl 1) (by omega)
  · intro hj hjr hok hfail
    have := fetchAux_success oracle retries backoff err j s hok hfail hjr
      retries 1 none (Nat.le_refl 1) hj (by omega)
    rw [fetchWithRetry, this]
    rw [show j + 1 - 1 = j by omega]

/-- C8 witness: three attempts, all failing, with backoff 800: attempts
1,2,3, sleeps 800 and 1600, and the final error is attempt 3's error. -/
theorem C8_fetch_retry_behavior_witness :
    fetchWithRetry (fun k => (Except.error ("boom" ++ toString k) : Except String String))
        3 800
      = ⟨[1, 2, 3], [800, 1600], Except.error (some "boom3")⟩ := by
  have h := (C8_fetch_retry_behavior
      (fun k => (Except.error ("boom" ++ toString k) : Except String String))
      3 800 (fun k => "boom" ++ toString k) "" 1 (by omega)).2.1
      (fun k _ _ => rfl)
  rw [h]
  rfl


/-- C9 witness: an upsert of a fresh record leaves the lookup at an
unrelated key unchanged. -/
theorem C9_upsert_frame_witness :
    lookupId (upsertIndex [] (sampleJob (some 1)) "t").1 "other"
      = lookupId [] "other" :=
  (C9_upsert_frame [] (sampleJob (some 1)) "t" "other").1 (by decide)
